import Mathlib

/-!
Verification of the picamera encoder-framework specification against the
package sources.  The package init module (`picamera/__init__.py`) is present;
the implementation modules `picamera.streams`, `picamera.encoders` and
`picamera.camera` are not, so the Ring Buffer Store, the Frame Metadata
Tracker and the Encoder State Machine are modelled from the specification's
words and verified against those models.
-/

/-- Modelled from the spec: the Ring Buffer Store (the CircularIO class of
`picamera.streams`, which is missing from the sources; only its import and
documentation appear in `picamera/__init__.py`).  `data` holds the retained
bytes oldest first, `startPos` is the logical position of the oldest retained
byte, and `sizeLimit` is the optional bound fixed at construction. -/
structure RingBufferStore where
  data : List Nat
  startPos : Nat
  sizeLimit : Option Nat

/-- A freshly constructed Ring Buffer Store with the given size limit. -/
def RingBufferStore.mk0 (limit : Option Nat) : RingBufferStore :=
  { data := [], startPos := 0, sizeLimit := limit }

/-- Modelled from the spec: `write(bytes)` appends bytes; if this would exceed
the size limit, it discards the oldest bytes needed to make room, advancing
the logical start position accordingly. -/
def RingBufferStore.write (s : RingBufferStore) (bs : List Nat) : RingBufferStore :=
  match s.sizeLimit with
  | none => { s with data := s.data ++ bs }
  | some n =>
      let appended := s.data ++ bs
      let excess := appended.length - n
      { s with data := appended.drop excess, startPos := s.startPos + excess }

/-- Run a sequence of write operations on a Ring Buffer Store. -/
def RingBufferStore.writeAll (s : RingBufferStore) (ws : List (List Nat)) : RingBufferStore :=
  ws.foldl RingBufferStore.write s

/-- Total number of bytes ever written by a sequence of write operations. -/
def totalWritten (ws : List (List Nat)) : Nat :=
  (ws.map List.length).sum

/-- Modelled from the spec: `read(position, length)` returns up to `length`
bytes starting at logical `position`, clipped to the currently-retained
range. -/
def RingBufferStore.read (s : RingBufferStore) (pos len : Nat) : List Nat :=
  (s.data.drop (max pos s.startPos - s.startPos)).take
    (min (pos + len) (s.startPos + s.data.length) - max pos s.startPos)

theorem RingBufferStore.write_sizeLimit (s : RingBufferStore) (bs : List Nat) :
    (s.write bs).sizeLimit = s.sizeLimit := by
  unfold RingBufferStore.write
  cases s.sizeLimit <;> rfl

theorem RingBufferStore.write_length_le (n : Nat) (s : RingBufferStore) (bs : List Nat)
    (hl : s.sizeLimit = some n) :
    (s.write bs).data.length ≤ n ∨ (s.write bs).data.length = s.data.length + bs.length := by
  unfold RingBufferStore.write
  rw [hl]
  simp only [List.length_drop, List.length_append]
  omega

theorem RingBufferStore.write_total (s : RingBufferStore) (bs : List Nat) :
    (s.write bs).startPos + (s.write bs).data.length
      = s.startPos + s.data.length + bs.length := by
  unfold RingBufferStore.write
  cases h : s.sizeLimit with
  | none => simp ; omega
  | some n =>
      simp only [List.length_drop, List.length_append]
      omega

theorem RingBufferStore.writeAll_invariant (n : Nat) (ws : List (List Nat))
    (s : RingBufferStore) (hl : s.sizeLimit = some n) (h : s.data.length ≤ n) :
    (s.writeAll ws).sizeLimit = some n ∧
    (s.writeAll ws).data.length ≤ n ∧
    (s.writeAll ws).startPos + (s.writeAll ws).data.length
      = s.startPos + s.data.length + totalWritten ws := by
  induction ws generalizing s with
  | nil => simpa [RingBufferStore.writeAll, totalWritten] using ⟨hl, h⟩
  | cons w ws ih =>
      have hstep : s.writeAll (w :: ws) = (s.write w).writeAll ws := by
        simp [RingBufferStore.writeAll, List.foldl_cons]
      have hl' : (s.write w).sizeLimit = some n := by
        rw [RingBufferStore.write_sizeLimit, hl]
      have hlen : (s.write w).data.length ≤ n := by
        unfold RingBufferStore.write
        rw [hl]
        simp only [List.length_drop, List.length_append]
        omega
      have htot := RingBufferStore.write_total s w
      obtain ⟨h1, h2, h3⟩ := ih (s.write w) hl' hlen
      refine ⟨by rwa [hstep], by rwa [hstep], ?_⟩
      rw [hstep] at *
      simp only [totalWritten, List.map_cons, List.sum_cons] at *
      omega

/-- C1: for every sequence of writes to a Ring Buffer Store constructed with
`size_limit = N`, the store never retains more than N bytes, and the logical
position of the oldest retained byte is always at least (total bytes ever
written minus N); moreover the start position plus the retained length equals
the total bytes ever written. -/
theorem ring_buffer_bound (n : Nat) (ws : List (List Nat)) :
    (( RingBufferStore.mk0 (some n)).writeAll ws).data.length ≤ n ∧
    totalWritten ws ≤ (( RingBufferStore.mk0 (some n)).writeAll ws).startPos + n ∧
    (( RingBufferStore.mk0 (some n)).writeAll ws).startPos
      + (( RingBufferStore.mk0 (some n)).writeAll ws).data.length = totalWritten ws := by
  obtain ⟨h1, h2, h3⟩ :=
    RingBufferStore.writeAll_invariant n ws ( RingBufferStore.mk0 (some n)) rfl
      (by simp [RingBufferStore.mk0])
  simp only [RingBufferStore.mk0, List.length_nil, Nat.zero_add] at h1 h2 h3 ⊢
  exact ⟨h2, by omega, by omega⟩

/-- The full byte sequence of the C4 scenario: 600 bytes then 600 more. -/
def c4AllBytes : List Nat :=
  List.range 600 ++ (List.range 600).map (fun i => i + 600)

/-- The Ring Buffer Store of the C4 scenario after both writes. -/
def c4Store : RingBufferStore :=
  (( RingBufferStore.mk0 (some 1024)).write (List.range 600)).write
    ((List.range 600).map (fun i => i + 600))

set_option maxRecDepth 100000 in
/-- C4: with `size_limit = 1024`, writing 600 bytes and then 600 more (1200
total) leaves the store retaining exactly the last 1024 bytes written — the
first 176 bytes are discarded and the logical start position is 176. -/
theorem ring_buffer_concrete :
    c4AllBytes.length = 1200 ∧
    c4Store.data = c4AllBytes.drop 176 ∧
    c4Store.data.length = 1024 ∧
    c4Store.startPos = 176 := by
  refine ⟨by decide, by decide, by decide, by decide⟩

/-- C8: `read(position, length)` on the Ring Buffer Store is a total function
(never an error): it returns at most `length` bytes, every returned byte is a
contiguous piece of the retained data, and a position at or before the
retained window yields exactly the retained portion of the requested range. -/
theorem read_never_errors (s : RingBufferStore) (pos len : Nat) :
    (s.read pos len).length ≤ len ∧
    (s.read pos len) <:+: s.data ∧
    (pos ≤ s.startPos → s.read pos len = s.data.take (pos + len - s.startPos)) := by
  refine ⟨?_, ?_, ?_⟩
  · unfold RingBufferStore.read
    simp only [List.length_take, List.length_drop]
    omega
  · exact ((List.take_prefix _ _).isInfix).trans (List.drop_suffix _ _).isInfix
  · intro h
    unfold RingBufferStore.read
    have hmax : max pos s.startPos = s.startPos := Nat.max_eq_right h
    rw [hmax, Nat.sub_self, List.drop_zero, List.take_eq_take]
    omega

/-- Witness for C8 at a concrete input: the store holds bytes 5, 6, 7 under
limit 2, so it retains `[6, 7]` at start position 1, and a read from the
stale position 0 returns the retained portion. -/
theorem read_never_errors_witness :
    0 ≤ (( RingBufferStore.mk0 (some 2)).write [5, 6, 7]).startPos ∧
    (( RingBufferStore.mk0 (some 2)).write [5, 6, 7]).read 0 9
      = (( RingBufferStore.mk0 (some 2)).write [5, 6, 7]).data.take
          (0 + 9 - (( RingBufferStore.mk0 (some 2)).write [5, 6, 7]).startPos) :=
  ⟨Nat.zero_le _,
    (read_never_errors (( RingBufferStore.mk0 (some 2)).write [5, 6, 7]) 0 9).2.2
      (Nat.zero_le _)⟩

/-- Flags carried by a hardware buffer, as delivered to the callback:
frame-start, frame-end, keyframe and config-header bits. -/
structure BufferFlags where
  frame_start : Bool
  frame_end : Bool
  key : Bool
  config : Bool

/-- A hardware buffer notification: payload length, flags and an optional
presentation timestamp. -/
structure HwBuffer where
  length : Nat
  flags : BufferFlags
  timestamp : Option Nat

/-- The frame metadata snapshot published at each frame-end event, modelled
from the `PiVideoFrame` attribute documentation in `picamera/__init__.py`
(the class itself lives in `picamera.camera`, which is missing from the
sources). -/
structure PiVideoFrame where
  index : Nat
  position : Nat
  keyframe : Bool
  frame_size : Nat
  video_size : Nat
  split_size : Nat
  timestamp : Option Nat
  header : Bool

/-- Modelled from the spec: the Frame Metadata Tracker state between buffer
notifications.  `nextIndex` is the index the next completed frame will get,
`nextPos` the stream position of the in-progress frame's first byte;
`sizeAcc`, `keyAcc` and `headAcc` accumulate size and flags across the
frame's constituent buffers; `videoSize` and `splitSize` count bytes of
completed frames. -/
structure FrameTracker where
  nextIndex : Nat
  nextPos : Nat
  sizeAcc : Nat
  keyAcc : Bool
  headAcc : Bool
  videoSize : Nat
  splitSize : Nat

/-- The tracker state before any buffer has been observed. -/
def FrameTracker.init : FrameTracker :=
  { nextIndex := 0, nextPos := 0, sizeAcc := 0, keyAcc := false,
    headAcc := false, videoSize := 0, splitSize := 0 }

/-- The tracker state after a frame-end buffer of length `n`: the index is
advanced, the position moves past the completed frame, the accumulators
reset, and the byte counters grow by the completed frame's size. -/
def FrameTracker.afterEnd (s : FrameTracker) (n : Nat) : FrameTracker :=
  { nextIndex := s.nextIndex + 1,
    nextPos := s.nextPos + (s.sizeAcc + n),
    sizeAcc := 0, keyAcc := false, headAcc := false,
    videoSize := s.videoSize + (s.sizeAcc + n),
    splitSize := s.splitSize + (s.sizeAcc + n) }

/-- The tracker state after a mid-frame buffer: size and flags accumulate. -/
def FrameTracker.afterMid (s : FrameTracker) (b : HwBuffer) : FrameTracker :=
  { s with sizeAcc := s.sizeAcc + b.length,
           keyAcc := s.keyAcc || b.flags.key,
           headAcc := s.headAcc || b.flags.config }

/-- The frame snapshot published when buffer `b` ends the current frame. -/
def FrameTracker.endFrame (s : FrameTracker) (b : HwBuffer) : PiVideoFrame :=
  { index := s.nextIndex,
    position := s.nextPos,
    keyframe := s.keyAcc || b.flags.key,
    frame_size := s.sizeAcc + b.length,
    video_size := s.videoSize + (s.sizeAcc + b.length),
    split_size := s.splitSize + (s.sizeAcc + b.length),
    timestamp := b.timestamp,
    header := s.headAcc || b.flags.config }

/-- Modelled from the spec: one buffer notification.  Between frame-end
events the tracker accumulates `frame_size` and ORs the keyframe/header
flags; at a frame-end event it publishes the completed frame's snapshot and
resets the accumulators. -/
def FrameTracker.step (s : FrameTracker) (b : HwBuffer) :
    FrameTracker × Option PiVideoFrame :=
  if b.flags.frame_end then
    (s.afterEnd b.length, some (s.endFrame b))
  else
    (s.afterMid b, none)

/-- Run the tracker over a list of buffer notifications, collecting the
completed frame snapshots in order. -/
def FrameTracker.run (s : FrameTracker) :
    List HwBuffer → FrameTracker × List PiVideoFrame
  | [] => (s, [])
  | b :: bs =>
      let p := s.step b
      let q := p.1.run bs
      (q.1, p.2.toList ++ q.2)

/-- The chain predicate: the frames carry consecutive indices starting at
`i`, and each frame's position is the previous position plus the previous
frame's size, starting at `p`. -/
def chainFrom (i p : Nat) : List PiVideoFrame → Prop
  | [] => True
  | f :: fs => f.index = i ∧ f.position = p ∧ chainFrom (i + 1) (p + f.frame_size) fs

theorem FrameTracker.run_chain (bs : List HwBuffer) (s : FrameTracker) :
    chainFrom s.nextIndex s.nextPos (s.run bs).2 := by
  induction bs generalizing s with
  | nil => simp [FrameTracker.run, chainFrom]
  | cons b bs ih =>
      by_cases hend : b.flags.frame_end = true
      · have ih' := ih (s.afterEnd b.length)
        simp only [FrameTracker.run, FrameTracker.step, hend, if_pos, Option.toList_some,
          List.cons_append, List.nil_append]
        exact ⟨rfl, rfl, ih'⟩
      · have ih' := ih (s.afterMid b)
        simp only [FrameTracker.run, FrameTracker.step, hend, if_neg, Bool.false_eq_true,
          not_false_iff, Option.toList_none, List.nil_append]
        exact ih'

theorem chainFrom_consec (fs : List PiVideoFrame) (i p : Nat) (hc : chainFrom i p fs)
    (k : Nat) (h1 : k < fs.length) (h2 : k + 1 < fs.length) :
    (fs.get ⟨k + 1, h2⟩).index = (fs.get ⟨k, h1⟩).index + 1 ∧
    (fs.get ⟨k + 1, h2⟩).position
      = (fs.get ⟨k, h1⟩).position + (fs.get ⟨k, h1⟩).frame_size := by
  induction fs generalizing i p k with
  | nil => exact absurd h1 (by simp)
  | cons f rest ih =>
      cases k with
      | zero =>
          cases rest with
          | nil => exact absurd h2 (by simp)
          | cons f' rest' =>
              obtain ⟨hi, hp, hf'i, hf'p, -⟩ := hc
              refine ⟨?_, ?_⟩
              · show f'.index = f.index + 1
                rw [hi, hf'i]
              · show f'.position = f.position + f.frame_size
                rw [hp, hf'p]
      | succ k' =>
          obtain ⟨hi, hp, hchain⟩ := hc
          have h1' : k' < rest.length := by simpa using h1
          have h2' : k' + 1 < rest.length := by simpa using h2
          exact ih _ _ hchain k' h1' h2'

theorem FrameTracker.run_length (bs : List HwBuffer) (s : FrameTracker) :
    (s.run bs).2.length = (bs.filter (fun b => b.flags.frame_end)).length := by
  induction bs generalizing s with
  | nil => simp [FrameTracker.run]
  | cons b bs ih =>
      by_cases hend : b.flags.frame_end = true
      · simp [FrameTracker.run, FrameTracker.step, hend, ih]
      · simp [FrameTracker.run, FrameTracker.step, hend, ih]

/-- C2: for consecutive completed frames k and k+1 of a tracker run, the
index increases by exactly one and position(k+1) = position(k) +
frame_size(k); moreover exactly one frame is emitted per frame-end
notification. -/
theorem frame_monotonicity (bs : List HwBuffer) (k : Nat)
    (h1 : k < (( FrameTracker.init).run bs).2.length)
    (h2 : k + 1 < (( FrameTracker.init).run bs).2.length) :
    ((( FrameTracker.init).run bs).2.get ⟨k + 1, h2⟩).index
        = ((( FrameTracker.init).run bs).2.get ⟨k, h1⟩).index + 1 ∧
    ((( FrameTracker.init).run bs).2.get ⟨k + 1, h2⟩).position
        = ((( FrameTracker.init).run bs).2.get ⟨k, h1⟩).position
          + ((( FrameTracker.init).run bs).2.get ⟨k, h1⟩).frame_size ∧
    (( FrameTracker.init).run bs).2.length
        = (bs.filter (fun b => b.flags.frame_end)).length := by
  have hc := FrameTracker.run_chain bs FrameTracker.init
  obtain ⟨ha, hb⟩ := chainFrom_consec _ _ _ hc k h1 h2
  exact ⟨ha, hb, FrameTracker.run_length bs _⟩

/-- Construct a hardware buffer from its length and flag bits. -/
def mkBuf (len : Nat) (bstart bend bkey bcfg : Bool) : HwBuffer :=
  { length := len,
    flags := { frame_start := bstart, frame_end := bend, key := bkey, config := bcfg },
    timestamp := none }

/-- The buffer sequence of the C3 scenario: two frames of two buffers each. -/
def c3Bufs : List HwBuffer :=
  [mkBuf 100 true false false false, mkBuf 50 false true true false,
   mkBuf 20 true false false true, mkBuf 30 false true false false]

/-- Witness for C2 at the concrete C3 buffer sequence: the second frame's
index is the first frame's index plus one. -/
theorem frame_monotonicity_witness :
    ((( FrameTracker.init).run c3Bufs).2.get ⟨0 + 1, by decide⟩).index
        = ((( FrameTracker.init).run c3Bufs).2.get ⟨0, by decide⟩).index + 1 :=
  (frame_monotonicity c3Bufs 0 (by decide) (by decide)).1

theorem FrameTracker.run_accumulate (pre : List HwBuffer) (lastBuf : HwBuffer)
    (s : FrameTracker) (hpre : ∀ b ∈ pre, b.flags.frame_end = false)
    (hlast : lastBuf.flags.frame_end = true) :
    ∃ f, (s.run (pre ++ [lastBuf])).2 = [f] ∧
      f.frame_size = s.sizeAcc + ((pre.map HwBuffer.length).sum + lastBuf.length) ∧
      f.keyframe
        = (s.keyAcc || ((pre.map (fun b => b.flags.key)).any id || lastBuf.flags.key)) ∧
      f.header
        = (s.headAcc || ((pre.map (fun b => b.flags.config)).any id || lastBuf.flags.config)) := by
  induction pre generalizing s with
  | nil =>
      refine ⟨s.endFrame lastBuf, ?_, ?_, ?_, ?_⟩
      · simp [FrameTracker.run, FrameTracker.step, hlast]
      · simp [FrameTracker.endFrame]
      · simp [FrameTracker.endFrame]
      · simp [FrameTracker.endFrame]
  | cons b pre ih =>
      have hb : b.flags.frame_end = false := hpre b (List.mem_cons_self b pre)
      have hpre' : ∀ x ∈ pre, x.flags.frame_end = false :=
        fun x hx => hpre x (List.mem_cons_of_mem b hx)
      obtain ⟨f, hf, hsz, hk, hh⟩ := ih (s.afterMid b) hpre'
      refine ⟨f, ?_, ?_, ?_, ?_⟩
      · simpa [FrameTracker.run, FrameTracker.step, hb] using hf
      · simp only [FrameTracker.afterMid] at hsz
        simp only [List.map_cons, List.sum_cons]
        omega
      · simp only [FrameTracker.afterMid] at hk
        simp only [List.map_cons, List.any_cons, id_eq] at hk ⊢
        rw [hk]
        simp [Bool.or_assoc]
      · simp only [FrameTracker.afterMid] at hh
        simp only [List.map_cons, List.any_cons, id_eq] at hh ⊢
        rw [hh]
        simp [Bool.or_assoc]

/-- C3: running the tracker on the buffer sequence
[frame-start 100B][frame-end keyframe 50B][frame-start header 20B]
[frame-end 30B] publishes a first snapshot with index 0, frame size 150,
keyframe true and header false, and a second with index 1, frame size 50 and
header true; in general, a frame built from non-end buffers followed by a
frame-end buffer has `frame_size` the sum of the constituent lengths and
keyframe/header the OR of the constituent flags. -/
theorem frame_flag_accumulation :
    ((( FrameTracker.init).run c3Bufs).2.map PiVideoFrame.index = [0, 1] ∧
     (( FrameTracker.init).run c3Bufs).2.map PiVideoFrame.frame_size = [150, 50] ∧
     (( FrameTracker.init).run c3Bufs).2.map PiVideoFrame.keyframe = [true, false] ∧
     (( FrameTracker.init).run c3Bufs).2.map PiVideoFrame.header = [false, true]) ∧
    ∀ (pre : List HwBuffer) (lastBuf : HwBuffer) (s : FrameTracker),
      (∀ b ∈ pre, b.flags.frame_end = false) → lastBuf.flags.frame_end = true →
      ∃ f, (s.run (pre ++ [lastBuf])).2 = [f] ∧
        f.frame_size = s.sizeAcc + ((pre.map HwBuffer.length).sum + lastBuf.length) ∧
        f.keyframe
          = (s.keyAcc || ((pre.map (fun b => b.flags.key)).any id || lastBuf.flags.key)) ∧
        f.header
          = (s.headAcc || ((pre.map (fun b => b.flags.config)).any id || lastBuf.flags.config)) :=
  ⟨by refine ⟨by decide, by decide, by decide, by decide⟩,
   fun pre lastBuf s h1 h2 => FrameTracker.run_accumulate pre lastBuf s h1 h2⟩

/-- Witness for C3's general clause at a concrete one-frame input: a 100-byte
frame-start buffer followed by a 50-byte keyframe frame-end buffer yields a
single snapshot of size 150 with keyframe set and header clear. -/
theorem frame_flag_accumulation_witness :
    ∃ f, (( FrameTracker.init).run
        ([mkBuf 100 true false false false] ++ [mkBuf 50 false true true false])).2 = [f] ∧
      f.frame_size = ( FrameTracker.init).sizeAcc
        + (([mkBuf 100 true false false false].map HwBuffer.length).sum + 50) ∧
      f.keyframe = (( FrameTracker.init).keyAcc
        || (([mkBuf 100 true false false false].map (fun b => b.flags.key)).any id || true)) ∧
      f.header = (( FrameTracker.init).headAcc
        || (([mkBuf 100 true false false false].map (fun b => b.flags.config)).any id || false)) :=
  frame_flag_accumulation.2 [mkBuf 100 true false false false]
    (mkBuf 50 false true true false) FrameTracker.init (by decide) (by decide)

/-- Modelled from the spec: the sink-switching state of a video encoder after
a `split` request (`PiVideoEncoder` of `picamera.encoders`, missing from the
sources).  Buffers written to each sink are recorded in order; `usingNew`
says whether the new sink is active, `splitPending` whether the encoder is
still waiting for the header buffer, and `split_size` counts bytes since the
active sink became active. -/
structure SplitState where
  oldSink : List HwBuffer
  newSink : List HwBuffer
  usingNew : Bool
  splitPending : Bool
  split_size : Nat

/-- The encoder state right after a split request arrives mid-stream, with
`sz0` bytes already counted towards the current sink. -/
def splitInit (sz0 : Nat) : SplitState :=
  { oldSink := [], newSink := [], usingNew := false,
    splitPending := true, split_size := sz0 }

/-- Modelled from the spec: the callback's sink dispatch for one buffer while
a split may be pending.  Until the header-flagged buffer arrives the old sink
keeps receiving output; the header buffer activates the new sink and resets
`split_size` to zero at that moment (so after writing the header buffer it
equals that buffer's length). -/
def splitStep (s : SplitState) (b : HwBuffer) : SplitState :=
  if s.splitPending && b.flags.config then
    { s with usingNew := true, splitPending := false,
             newSink := s.newSink ++ [b], split_size := 0 + b.length }
  else if s.usingNew then
    { s with newSink := s.newSink ++ [b], split_size := s.split_size + b.length }
  else
    { s with oldSink := s.oldSink ++ [b], split_size := s.split_size + b.length }

/-- Run the sink dispatch over a sequence of buffers. -/
def runSplit (s : SplitState) (bs : List HwBuffer) : SplitState :=
  bs.foldl splitStep s

theorem runSplit_before_header (bs : List HwBuffer) (s : SplitState)
    (hbs : ∀ b ∈ bs, b.flags.config = false)
    (hu : s.usingNew = false) (hp : s.splitPending = true) :
    (runSplit s bs).oldSink = s.oldSink ++ bs ∧
    (runSplit s bs).newSink = s.newSink ∧
    (runSplit s bs).usingNew = false ∧
    (runSplit s bs).splitPending = true ∧
    (runSplit s bs).split_size = s.split_size + (bs.map HwBuffer.length).sum := by
  induction bs generalizing s with
  | nil => simp [runSplit, hu, hp]
  | cons b bs ih =>
      have hb : b.flags.config = false := hbs b (List.mem_cons_self b bs)
      have hbs' : ∀ x ∈ bs, x.flags.config = false :=
        fun x hx => hbs x (List.mem_cons_of_mem b hx)
      have hs1 : (splitStep s b).oldSink = s.oldSink ++ [b] := by
        simp [splitStep, hb, hu, hp]
      have hs2 : (splitStep s b).newSink = s.newSink := by
        simp [splitStep, hb, hu, hp]
      have hs3 : (splitStep s b).usingNew = false := by
        simp [splitStep, hb, hu, hp]
      have hs4 : (splitStep s b).splitPending = true := by
        simp [splitStep, hb, hu, hp]
      have hs5 : (splitStep s b).split_size = s.split_size + b.length := by
        simp [splitStep, hb, hu, hp]
      obtain ⟨h1, h2, h3, h4, h5⟩ := ih (splitStep s b) hbs' hs3 hs4
      simp only [runSplit, List.foldl_cons] at h1 h2 h3 h4 h5 ⊢
      refine ⟨?_, ?_, h3, h4, ?_⟩
      · rw [h1, hs1]
        simp
      · rw [h2, hs2]
      · rw [h5, hs5]
        simp only [List.map_cons, List.sum_cons]
        omega

theorem runSplit_after_header (bs : List HwBuffer) (s : SplitState)
    (hu : s.usingNew = true) (hp : s.splitPending = false) :
    (runSplit s bs).oldSink = s.oldSink ∧
    (runSplit s bs).newSink = s.newSink ++ bs ∧
    (runSplit s bs).split_size = s.split_size + (bs.map HwBuffer.length).sum := by
  induction bs generalizing s with
  | nil => simp [runSplit]
  | cons b bs ih =>
      have hs1 : (splitStep s b).oldSink = s.oldSink := by
        simp [splitStep, hu, hp]
      have hs2 : (splitStep s b).newSink = s.newSink ++ [b] := by
        simp [splitStep, hu, hp]
      have hs3 : (splitStep s b).usingNew = true := by
        simp [splitStep, hu, hp]
      have hs4 : (splitStep s b).splitPending = false := by
        simp [splitStep, hu, hp]
      have hs5 : (splitStep s b).split_size = s.split_size + b.length := by
        simp [splitStep, hu, hp]
      obtain ⟨h1, h2, h3⟩ := ih (splitStep s b) hs3 hs4
      simp only [runSplit, List.foldl_cons] at h1 h2 h3 ⊢
      refine ⟨?_, ?_, ?_⟩
      · rw [h1, hs1]
      · rw [h2, hs2]
        simp
      · rw [h3, hs5]
        simp only [List.map_cons, List.sum_cons]
        omega

/-- C5: after a split request, the buffers delivered before the header-flagged
buffer all go to the old sink, the new sink receives exactly the header buffer
and every buffer after it, and `split_size` is reset to zero at the new sink's
first byte — right after the header buffer it equals that buffer's length,
while before the header it still accumulates on top of the old count. -/
theorem split_sink_boundary (pre post : List HwBuffer) (hdr : HwBuffer) (sz0 : Nat)
    (hpre : ∀ b ∈ pre, b.flags.config = false) (hhdr : hdr.flags.config = true) :
    (runSplit (splitInit sz0) (pre ++ hdr :: post)).oldSink = pre ∧
    (runSplit (splitInit sz0) (pre ++ hdr :: post)).newSink = hdr :: post ∧
    (runSplit (splitInit sz0) (pre ++ [hdr])).split_size = 0 + hdr.length ∧
    (runSplit (splitInit sz0) pre).split_size = sz0 + (pre.map HwBuffer.length).sum := by
  obtain ⟨p1, p2, p3, p4, p5⟩ := runSplit_before_header pre (splitInit sz0)
    hpre rfl rfl
  have hd1 : (splitStep (runSplit (splitInit sz0) pre) hdr).oldSink
      = (runSplit (splitInit sz0) pre).oldSink := by
    simp [splitStep, p4, hhdr]
  have hd2 : (splitStep (runSplit (splitInit sz0) pre) hdr).newSink
      = (runSplit (splitInit sz0) pre).newSink ++ [hdr] := by
    simp [splitStep, p4, hhdr]
  have hd3 : (splitStep (runSplit (splitInit sz0) pre) hdr).usingNew = true := by
    simp [splitStep, p4, hhdr]
  have hd4 : (splitStep (runSplit (splitInit sz0) pre) hdr).splitPending = false := by
    simp [splitStep, p4, hhdr]
  have hd5 : (splitStep (runSplit (splitInit sz0) pre) hdr).split_size
      = 0 + hdr.length := by
    simp [splitStep, p4, hhdr]
  have happend : runSplit (splitInit sz0) (pre ++ hdr :: post)
      = runSplit (splitStep (runSplit (splitInit sz0) pre) hdr) post := by
    simp [runSplit, List.foldl_append, List.foldl_cons]
  obtain ⟨q1, q2, q3⟩ := runSplit_after_header post
    (splitStep (runSplit (splitInit sz0) pre) hdr) hd3 hd4
  refine ⟨?_, ?_, ?_, ?_⟩
  · rw [happend, q1, hd1, p1]
    simp [splitInit]
  · rw [happend, q2, hd2, p2]
    simp [splitInit]
  · have hsingle : runSplit (splitInit sz0) (pre ++ [hdr])
        = splitStep (runSplit (splitInit sz0) pre) hdr := by
      simp [runSplit, List.foldl_append, List.foldl_cons]
    rw [hsingle, hd5]
  · rw [p5]
    simp [splitInit]

/-- Witness for C5 at a concrete input: two plain buffers, then a 20-byte
header buffer, then a 30-byte buffer. -/
theorem split_sink_boundary_witness :
    (runSplit (splitInit 700)
      ([mkBuf 100 true false false false, mkBuf 50 false true true false]
        ++ mkBuf 20 true false false true :: [mkBuf 30 false true false false])).oldSink
      = [mkBuf 100 true false false false, mkBuf 50 false true true false] ∧
    (runSplit (splitInit 700)
      ([mkBuf 100 true false false false, mkBuf 50 false true true false]
        ++ mkBuf 20 true false false true :: [mkBuf 30 false true false false])).newSink
      = mkBuf 20 true false false true :: [mkBuf 30 false true false false] ∧
    (runSplit (splitInit 700)
      ([mkBuf 100 true false false false, mkBuf 50 false true true false]
        ++ [mkBuf 20 true false false true])).split_size = 0 + 20 ∧
    (runSplit (splitInit 700)
      [mkBuf 100 true false false false, mkBuf 50 false true true false]).split_size
      = 700 + ([mkBuf 100 true false false false,
                mkBuf 50 false true true false].map HwBuffer.length).sum :=
  split_sink_boundary
    [mkBuf 100 true false false false, mkBuf 50 false true true false]
    [mkBuf 30 false true false false] (mkBuf 20 true false false true) 700
    (by decide) (by decide)

/-- Modelled from the spec: the encoder state machine's states,
IDLE → CONFIGURED → RUNNING → (RUNNING ⇄ SPLITTING) → STOPPING → IDLE
(`PiEncoder` of `picamera.encoders`, missing from the sources). -/
inductive EncState
  | IDLE
  | CONFIGURED
  | RUNNING
  | SPLITTING
  | STOPPING
  deriving DecidableEq

/-- Modelled from the spec: an encoder owning a hardware port and buffer
pools.  `resourcesHeld` records whether the port and pools are allocated;
`releaseCount` counts how many times resources have been released, so that a
double release is observable. -/
structure Encoder where
  state : EncState
  resourcesHeld : Bool
  releaseCount : Nat
  deriving DecidableEq

/-- Modelled from the spec: `stop()` is valid from any non-IDLE state — it
disables the port, releases the buffer pools and transitions to IDLE — and is
a no-op (not an error) on an already-IDLE encoder. -/
def Encoder.stop (e : Encoder) : Encoder :=
  match e.state with
  | .IDLE => e
  | _ =>
      { state := EncState.IDLE, resourcesHeld := false,
        releaseCount := e.releaseCount + (if e.resourcesHeld then 1 else 0) }

theorem Encoder.stop_stop (e : Encoder) : e.stop.stop = e.stop := by
  obtain ⟨st, r, c⟩ := e
  cases st <;> rfl

/-- C6: for every encoder state and every N ≥ 1, calling `stop` N times in a
row equals calling it once; on an already-IDLE encoder `stop` is a no-op
(raising no error, releasing nothing), and after one `stop` the encoder is
IDLE with no resources held, so nothing can be released twice. -/
theorem stop_idempotent (e : Encoder) (N : Nat) (h : 1 ≤ N) :
    Encoder.stop^[N] e = e.stop ∧
    e.stop.state = EncState.IDLE ∧
    (e.state = EncState.IDLE → e.stop = e) ∧
    e.stop.stop.releaseCount = e.stop.releaseCount := by
  refine ⟨?_, ?_, ?_, ?_⟩
  · obtain ⟨M, rfl⟩ : ∃ M, N = M + 1 := ⟨N - 1, by omega⟩
    clear h
    induction M with
    | zero => simp
    | succ M ih => rw [Function.iterate_succ_apply', ih, Encoder.stop_stop]
  · obtain ⟨st, r, c⟩ := e
    cases st <;> rfl
  · intro hidle
    obtain ⟨st, r, c⟩ := e
    cases st
    case IDLE => rfl
    all_goals simp at hidle
  · rw [Encoder.stop_stop]

/-- Witness for C6: stopping a RUNNING encoder three times equals stopping it
once. -/
theorem stop_idempotent_witness :
    (1 ≤ 3) ∧
    (Encoder.stop^[3] (Encoder.mk EncState.RUNNING true 0)
        = (Encoder.mk EncState.RUNNING true 0).stop ∧
     (Encoder.mk EncState.RUNNING true 0).stop.state = EncState.IDLE ∧
     ((Encoder.mk EncState.RUNNING true 0).state = EncState.IDLE →
        (Encoder.mk EncState.RUNNING true 0).stop = Encoder.mk EncState.RUNNING true 0) ∧
     (Encoder.mk EncState.RUNNING true 0).stop.stop.releaseCount
        = (Encoder.mk EncState.RUNNING true 0).stop.releaseCount) :=
  ⟨by decide, stop_idempotent (Encoder.mk EncState.RUNNING true 0) 3 (by decide)⟩

/-- Modelled from the spec: the controlling-context view of a video encoder
for the `split(new_sink)` operation — its state-machine state, whether a
split is still pending, the active sink target and the split byte count. -/
structure VideoEncoder where
  state : EncState
  splitPending : Bool
  sinkId : Nat
  split_size : Nat
  deriving DecidableEq

/-- Modelled from the spec: `split(new_sink)` is valid only from RUNNING and
fails with a runtime error if a previous split is still pending; on failure
the encoder is left exactly as it was.  The result pairs the (possibly
updated) encoder with an optional runtime-error message. -/
def VideoEncoder.requestSplit (e : VideoEncoder) : VideoEncoder × Option String :=
  if e.state ≠ EncState.RUNNING then
    (e, some "not currently recording")
  else if e.splitPending then
    (e, some "previous split is still in progress")
  else
    ({ e with splitPending := true }, none)

/-- C7: calling `split` while a previous split is still pending yields a
runtime error and leaves the encoder in its prior valid state — sink target
and split bookkeeping unchanged. -/
theorem split_while_pending_errors (e : VideoEncoder)
    (hrun : e.state = EncState.RUNNING) (hpend : e.splitPending = true) :
    (e.requestSplit.2).isSome = true ∧
    e.requestSplit.1 = e ∧
    e.requestSplit.1.sinkId = e.sinkId ∧
    e.requestSplit.1.split_size = e.split_size := by
  have : e.requestSplit = (e, some "previous split is still in progress") := by
    unfold VideoEncoder.requestSplit
    rw [hrun, hpend]
    simp
  rw [this]
  exact ⟨rfl, rfl, rfl, rfl⟩

/-- Witness for C7: a RUNNING encoder with a pending split rejects a second
split and is left unchanged. -/
theorem split_while_pending_errors_witness :
    ((VideoEncoder.mk EncState.RUNNING true 5 42).requestSplit.2).isSome = true ∧
    (VideoEncoder.mk EncState.RUNNING true 5 42).requestSplit.1
      = VideoEncoder.mk EncState.RUNNING true 5 42 ∧
    (VideoEncoder.mk EncState.RUNNING true 5 42).requestSplit.1.sinkId
      = (VideoEncoder.mk EncState.RUNNING true 5 42).sinkId ∧
    (VideoEncoder.mk EncState.RUNNING true 5 42).requestSplit.1.split_size
      = (VideoEncoder.mk EncState.RUNNING true 5 42).split_size :=
  split_while_pending_errors (VideoEncoder.mk EncState.RUNNING true 5 42) rfl rfl

/-- Events observable during a run: callback-invocation markers, the work
done inside an invocation, and controlling-context operations. -/
inductive CbEvent
  | cbBegin (id : Nat)
  | updateTracker
  | writeSink (n : Nat)
  | returnBuffer (id : Nat)
  | resupply
  | cbEnd (id : Nat)
  | ctrl
  deriving DecidableEq

/-- The operations of a system run: asynchronous hardware buffer deliveries
interleaved arbitrarily with controlling-context start/stop/split. -/
inductive SysOp
  | deliver (id : Nat) (b : HwBuffer)
  | ctrlStart
  | ctrlStop
  | ctrlSplit

/-- Modelled from the spec: control operations drive the encoder state
machine; a buffer delivery does not change the control state. -/
def applyOp (e : Encoder) : SysOp → Encoder
  | .deliver _ _ => e
  | .ctrlStart =>
      match e.state with
      | .IDLE => { e with state := EncState.RUNNING, resourcesHeld := true }
      | .CONFIGURED => { e with state := EncState.RUNNING, resourcesHeld := true }
      | _ => e
  | .ctrlStop => e.stop
  | .ctrlSplit => e

/-- Modelled from the spec: one callback invocation for a delivered hardware
buffer.  The tracker update and sink write happen only while the encoder is
RUNNING (a buffer draining after stop is discarded), but in every case the
buffer is returned to the hardware pool and an empty buffer re-supplied
before the invocation ends. -/
def callbackTrace (e : Encoder) (id : Nat) (b : HwBuffer) : List CbEvent :=
  CbEvent.cbBegin id ::
    ((if e.state = EncState.RUNNING
      then [CbEvent.updateTracker, CbEvent.writeSink b.length] else []) ++
     [CbEvent.returnBuffer id, CbEvent.resupply, CbEvent.cbEnd id])

/-- The event trace contributed by a single operation of the run. -/
def opTrace (e : Encoder) : SysOp → List CbEvent
  | .deliver id b => callbackTrace e id b
  | _ => [CbEvent.ctrl]

/-- The per-operation event traces of an interleaved run. -/
def runTraces (e : Encoder) : List SysOp → List (List CbEvent)
  | [] => []
  | op :: ops => opTrace e op :: runTraces (applyOp e op) ops

/-- Trace `tr` returns buffer `id` to the pool strictly before the
invocation-end marker. -/
def returnedWithin (tr : List CbEvent) (id : Nat) : Prop :=
  ∃ j k : Nat, j < k ∧ tr[j]? = some (CbEvent.returnBuffer id) ∧
    tr[k]? = some (CbEvent.cbEnd id)

theorem callbackTrace_returns (e : Encoder) (id : Nat) (b : HwBuffer) :
    returnedWithin (callbackTrace e id b) id := by
  by_cases h : e.state = EncState.RUNNING
  · exact ⟨3, 5, by omega, by simp [callbackTrace, h], by simp [callbackTrace, h]⟩
  · exact ⟨1, 3, by omega, by simp [callbackTrace, h], by simp [callbackTrace, h]⟩

/-- C9: in every interleaving of buffer deliveries with start/stop/split
control operations, each delivered hardware buffer is returned to the pool
within the event trace of its own callback invocation, strictly before that
invocation ends. -/
theorem buffer_returned_within_callback (ops : List SysOp) (e0 : Encoder)
    (i id : Nat) (b : HwBuffer)
    (hop : ops[i]? = some (SysOp.deliver id b)) :
    ∃ tr, (runTraces e0 ops)[i]? = some tr ∧ returnedWithin tr id := by
  induction ops generalizing e0 i with
  | nil => simp at hop
  | cons op ops ih =>
      cases i with
      | zero =>
          simp at hop
          subst hop
          exact ⟨callbackTrace e0 id b, by simp [runTraces, opTrace],
            callbackTrace_returns e0 id b⟩
      | succ i' =>
          simp at hop
          obtain ⟨tr, h1, h2⟩ := ih (applyOp e0 op) i' hop
          exact ⟨tr, by simpa [runTraces] using h1, h2⟩

/-- Witness for C9: in the interleaving start–deliver–stop, the buffer
delivered as operation 1 is returned within its own invocation. -/
theorem buffer_returned_within_callback_witness :
    ∃ tr, (runTraces (Encoder.mk EncState.IDLE false 0)
      [SysOp.ctrlStart, SysOp.deliver 7 (mkBuf 9 true false false false),
       SysOp.ctrlStop])[1]? = some tr ∧ returnedWithin tr 7 :=
  buffer_returned_within_callback
    [SysOp.ctrlStart, SysOp.deliver 7 (mkBuf 9 true false false false), SysOp.ctrlStop]
    (Encoder.mk EncState.IDLE false 0) 1 7 (mkBuf 9 true false false false) rfl

/-- The `__all__` star-export list of `picamera/__init__.py`
(lines 277–285 of the source). -/
def dunderAll : List String :=
  ["PiCamera", "PiVideoFrame", "PiCameraError", "PiCameraRuntimeError",
   "PiCameraValueError", "PiCameraCircularIO", "CircularIO"]

/-- The names imported at module scope by `picamera/__init__.py` from
`picamera.exc`, `picamera.camera`, `picamera.encoders` and
`picamera.streams`, in source order (lines 253–274). -/
def moduleImports : List String :=
  ["PiCameraWarning", "PiCameraError", "PiCameraRuntimeError",
   "PiCameraValueError", "PiCameraMMALError", "mmal_check",
   "PiCamera", "PiVideoFrame",
   "PiEncoder", "PiVideoEncoder", "PiImageEncoder", "PiOneImageEncoder",
   "PiMultiImageEncoder", "PiRawEncoderMixin", "PiCookedOneImageEncoder",
   "PiRawOneImageEncoder", "PiCookedMultiImageEncoder", "PiRawMultiImageEncoder",
   "PiCameraCircularIO", "CircularIO"]

/-- C10: `__all__` contains exactly the seven names PiCamera, PiVideoFrame,
PiCameraError, PiCameraRuntimeError, PiCameraValueError, PiCameraCircularIO
and CircularIO; the encoder classes, PiCameraWarning, PiCameraMMALError and
mmal_check are all imported by the module but absent from `__all__`. -/
theorem all_exports_exact :
    dunderAll = ["PiCamera", "PiVideoFrame", "PiCameraError", "PiCameraRuntimeError",
      "PiCameraValueError", "PiCameraCircularIO", "CircularIO"] ∧
    dunderAll.length = 7 ∧
    ∀ n ∈ (["PiEncoder", "PiVideoEncoder", "PiImageEncoder", "PiOneImageEncoder",
      "PiMultiImageEncoder", "PiRawEncoderMixin", "PiCookedOneImageEncoder",
      "PiRawOneImageEncoder", "PiCookedMultiImageEncoder", "PiRawMultiImageEncoder",
      "PiCameraWarning", "PiCameraMMALError", "mmal_check"] : List String),
      n ∈ moduleImports ∧ ¬ n ∈ dunderAll := by
  refine ⟨rfl, rfl, by decide⟩

/-- Witness for C10: PiEncoder is imported by the module but not exported. -/
theorem all_exports_exact_witness :
    "PiEncoder" ∈ moduleImports ∧ ¬ "PiEncoder" ∈ dunderAll :=
  all_exports_exact.2.2 "PiEncoder" (by decide)
